import Mathlib

/-!
Shallow embedding of the kayak reverse-mode automatic-differentiation core
(`src/kayak/matrix_ops.py`, `src/kayak/targets.py`).

Arrays are modelled as flat row-major lists of integers together with a shape;
numpy primitives used by the source (`np.sum`, `np.reshape`, `np.transpose`,
`np.dot`, elementwise `+`/`*` with broadcasting, `np.zeros`, `np.ones`,
`np.atleast_1d`, `np.argsort`, `np.nonzero(... == 1)`) are given explicit
executable definitions.  Fallible numpy calls return `Option`; constructors
that can raise return `Except PyErr`.
-/

namespace Kayak

/-- Distinguishes the two kinds of exception the embedded code can raise:
a Python `IndexError` from indexing a tuple out of range, and an ordinary
`Exception` raised explicitly by a constructor check. -/
inductive PyErr where
  | indexError
  | exception
deriving DecidableEq

/-- An n-dimensional array: a shape and the flat row-major element list.
Well-formed arrays satisfy `data.length = shape.prod`. -/
structure NDArray where
  shape : List Nat
  data : List Int
deriving DecidableEq

/-- Row-major multi-index of flat index `i` in shape `s`. -/
def unravel : List Nat → Nat → List Nat
  | [], _ => []
  | _ :: rest, i => (i / rest.prod) :: unravel rest (i % rest.prod)

/-- Row-major flat index of multi-index `ix` in shape `s`. -/
def ravel : List Nat → List Nat → Nat
  | _ :: rest, j :: jx => j * rest.prod + ravel rest jx
  | _, _ => 0

/-- Modelled from the spec: `util.broadcast` (the `util` module is not part of
the repository snapshot).  Helper working on reversed (trailing-first) shapes:
dimensions are compared from the rightmost; two dimensions are compatible if
equal or if either is 1; missing leading dimensions are treated as 1; the
result takes, per position, the larger of the two (or the present one where
the other is absent); `none` if any aligned pair is incompatible. -/
def broadcastRev : List Nat → List Nat → Option (List Nat)
  | [], ys => some ys
  | x :: xs, [] => some (x :: xs)
  | x :: xs, y :: ys =>
    match broadcastRev xs ys with
    | none => none
    | some rest =>
      if x = y then some (x :: rest)
      else if x = 1 then some (y :: rest)
      else if y = 1 then some (x :: rest)
      else none

/-- Modelled from the spec: `util.broadcast shapeA shapeB` returns the
numpy-style broadcast shape of the two shapes, or `none` if incompatible. -/
def broadcast (a b : List Nat) : Option (List Nat) :=
  (broadcastRev a.reverse b.reverse).map List.reverse

/-- Shape of `np.atleast_1d x`: a 0-d array becomes shape `(1,)`, anything
else keeps its shape. -/
def atleast1dShape (s : List Nat) : List Nat :=
  if s = [] then [1] else s

/-- Coordinates used to read an operand of shape `sx` at multi-index `ix` of a
broadcast result: drop the leading (broadcast-added) coordinates and clamp the
coordinate to 0 on axes where the operand's dimension is 1. -/
def bcCoord (sx : List Nat) (ix : List Nat) : List Nat :=
  (sx.zip (ix.drop (ix.length - sx.length))).map (fun p => if p.1 = 1 then 0 else p.2)

/-- Read element of `x` at multi-index `ix` of a broadcast result shape. -/
def NDArray.bcGet (x : NDArray) (ix : List Nat) : Int :=
  x.data.getD (ravel x.shape (bcCoord x.shape ix)) 0

/-- Model of `np.zeros s`. -/
def zeros (s : List Nat) : NDArray :=
  ⟨s, List.replicate s.prod 0⟩

/-- Model of `np.ones s`. -/
def ones (s : List Nat) : NDArray :=
  ⟨s, List.replicate s.prod 1⟩

/-- Model of `np.reshape x s`: succeeds exactly when the element counts of the
old and new shapes agree, and then only relabels the flat data. -/
def npReshape (x : NDArray) (s : List Nat) : Option NDArray :=
  if x.shape.prod = s.prod then some ⟨s, x.data⟩ else none

/-- Indices (ascending, counted from `pos`) of the axes of `s` whose dimension
is 1; models `tuple(np.nonzero(np.array(s) == 1)[0])`. -/
def onesIdxsFrom : Nat → List Nat → List Nat
  | _, [] => []
  | pos, d :: rest =>
    if d = 1 then pos :: onesIdxsFrom (pos + 1) rest
    else onesIdxsFrom (pos + 1) rest

/-- Shape of `s` with the axes listed in `axes` removed (positions counted
from `pos`). -/
def dropAxesFrom (axes : List Nat) : Nat → List Nat → List Nat
  | _, [] => []
  | pos, d :: rest =>
    if pos ∈ axes then dropAxesFrom axes (pos + 1) rest
    else d :: dropAxesFrom axes (pos + 1) rest

/-- Dimensions of `s` at the axes listed in `axes` (positions counted from
`pos`). -/
def keepAxesFrom (axes : List Nat) : Nat → List Nat → List Nat
  | _, [] => []
  | pos, d :: rest =>
    if pos ∈ axes then d :: keepAxesFrom axes (pos + 1) rest
    else keepAxesFrom axes (pos + 1) rest

/-- Interleave the coordinates of the kept axes (`kept`) and of the summed
axes (`ax`) back into a full multi-index for shape `s`. -/
def mergeCoordsFrom (axes : List Nat) : Nat → List Nat → List Nat → List Nat → List Nat
  | _, [], _, _ => []
  | pos, _ :: rest, kept, ax =>
    if pos ∈ axes then ax.headD 0 :: mergeCoordsFrom axes (pos + 1) rest kept ax.tail
    else kept.headD 0 :: mergeCoordsFrom axes (pos + 1) rest kept.tail ax

/-- Model of `np.sum(x, axis=tuple axes)` (no keepdims): the listed axes are
removed from the shape and the elements along them are summed. -/
def npSum (x : NDArray) (axes : List Nat) : NDArray :=
  let sK := dropAxesFrom axes 0 x.shape
  let sD := keepAxesFrom axes 0 x.shape
  ⟨sK, (List.range sK.prod).map (fun j =>
    ((List.range sD.prod).map (fun k =>
      x.data.getD
        (ravel x.shape (mergeCoordsFrom axes 0 x.shape (unravel sK j) (unravel sD k))) 0)).sum)⟩

/-- Model of numpy in-place addition `a += b`: `b` must broadcast to `a`'s
shape without enlarging it; the result keeps `a`'s shape. -/
def npAddInto (a b : NDArray) : Option NDArray :=
  if broadcast a.shape b.shape = some a.shape then
    some ⟨a.shape, (List.range a.shape.prod).map (fun i =>
      a.data.getD i 0 + b.bcGet (unravel a.shape i))⟩
  else none

/-- Model of elementwise `a + b` with numpy broadcasting. -/
def npAddBc (a b : NDArray) : Option NDArray :=
  match broadcast a.shape b.shape with
  | some sc => some ⟨sc, (List.range sc.prod).map (fun i =>
      a.bcGet (unravel sc i) + b.bcGet (unravel sc i))⟩
  | none => none

/-- Model of elementwise `a * b` with numpy broadcasting. -/
def npMulBc (a b : NDArray) : Option NDArray :=
  match broadcast a.shape b.shape with
  | some sc => some ⟨sc, (List.range sc.prod).map (fun i =>
      a.bcGet (unravel sc i) * b.bcGet (unravel sc i))⟩
  | none => none

/-- Model of `np.transpose(x, axes)` for an explicit axes permutation or the
default full reversal (`axes = none`); valid only when `axes` is a permutation
of the axis indices, as numpy checks. -/
def npTranspose (x : NDArray) (axes : Option (List Nat)) : Option NDArray :=
  let r := x.shape.length
  let perm := axes.getD (List.range r).reverse
  if perm.length == r && (List.range r).all (fun j => perm.contains j) then
    let outShape := perm.map (fun k => x.shape.getD k 0)
    some ⟨outShape, (List.range outShape.prod).map (fun i =>
      let ixOut := unravel outShape i
      let ixIn := (List.range r).map (fun j => ixOut.getD (perm.findIdx (fun v => v == j)) 0)
      x.data.getD (ravel x.shape ixIn) 0)⟩
  else none

/-- Model of `np.argsort` applied to an axes permutation: the inverse
permutation. -/
def argsortPerm (p : List Nat) : List Nat :=
  (List.range p.length).map (fun v => p.findIdx (fun x => x == v))

/-- Model of `np.dot` restricted to the ranks the source exercises
(matrix-matrix, matrix-vector, vector-matrix, vector-vector). -/
def npDot (x y : NDArray) : Option NDArray :=
  match x.shape, y.shape with
  | [n, m], [m2, p] =>
    if m = m2 then
      some ⟨[n, p], (List.range n).flatMap (fun i => (List.range p).map (fun j =>
        ((List.range m).map (fun k =>
          x.data.getD (i * m + k) 0 * y.data.getD (k * p + j) 0)).sum))⟩
    else none
  | [n, m], [m2] =>
    if m = m2 then
      some ⟨[n], (List.range n).map (fun i =>
        ((List.range m).map (fun k =>
          x.data.getD (i * m + k) 0 * y.data.getD k 0)).sum)⟩
    else none
  | [m], [m2, p] =>
    if m = m2 then
      some ⟨[p], (List.range p).map (fun j =>
        ((List.range m).map (fun k =>
          x.data.getD k 0 * y.data.getD (k * p + j) 0)).sum)⟩
    else none
  | [m], [m2] =>
    if m = m2 then
      some ⟨[], [((List.range m).map (fun k =>
        x.data.getD k 0 * y.data.getD k 0)).sum]⟩
    else none
  | _, _ => none

/-! Embeddings of the individual operation methods of `matrix_ops.py`. -/

/-- `MatMult.__init__` shape check: `if A.shape()[1] != B.shape()[0]: raise`.
Python evaluates `A.shape()[1]` (raising `IndexError` when `A`'s rank is
below 2) before the comparison can raise the explicit `Exception`. -/
def matMultCheck (sa sb : List Nat) : Except PyErr Unit :=
  match sa.get? 1, sb.get? 0 with
  | some x, some y => if x ≠ y then .error .exception else .ok ()
  | _, _ => .error .indexError

/-- `MatMult.shape`: `(A.shape()[0],)` when `B` has rank 1, else
`(A.shape()[0], B.shape()[1])`; tuple indexing can raise, hence `Option`. -/
def matMultShape (sa sb : List Nat) : Option (List Nat) :=
  if sb.length = 1 then (sa.get? 0).map (fun r => [r])
  else do
    let r ← sa.get? 0
    let c ← sb.get? 1
    pure [r, c]

/-- A Python axis argument for `MatSum`: either an `int` or a value of some
other type (e.g. a tuple of axes). -/
inductive AxisArg where
  | int (i : Int)
  | nonInt
deriving DecidableEq

/-- `MatSum.__init__` axis check: raises unless the axis is absent or a single
integer (`if axis is not None and type(axis) != int: raise`). -/
def matSumCheck (axis : Option AxisArg) : Except PyErr (Option Int) :=
  match axis with
  | none => .ok none
  | some (.int i) => .ok (some i)
  | some .nonInt => .error .exception

/-- `MatSum.shape` for an integer axis: `A_shape[axis] = 1` with Python list
indexing (negative indices wrap; out-of-range raises). -/
def setAxisOne (s : List Nat) (i : Int) : Option (List Nat) :=
  let j : Int := if i < 0 then (s.length : Int) + i else i
  if 0 ≤ j ∧ j < (s.length : Int) then some (s.set j.toNat 1) else none

/-- Insert a dimension of size 1 at position `k`; models
`np.expand_dims(x, axis=k)` on the shape. -/
def insertOneAt : Nat → List Nat → List Nat
  | 0, s => 1 :: s
  | _ + 1, [] => [1]
  | k + 1, d :: rest => d :: insertOneAt k rest

/-- `MatAdd.local_grad_A` (and, textually identical, `local_grad_B`) given the
operand's own shape `sa`: return `outgrad` unchanged when its (at-least-1-d)
shape already equals `sa`; otherwise sum `outgrad` over the axes where `sa`
is 1 and reshape the result to `sa`. -/
def localGradA (sa : List Nat) (outgrad : NDArray) : Option NDArray :=
  if atleast1dShape outgrad.shape = sa then some outgrad
  else npReshape (npSum outgrad (onesIdxsFrom 0 sa)) sa

/-- `MatAdd.local_grad_B`: same body as `local_grad_A` with the B operand's
shape. -/
def localGradB (sb : List Nat) (outgrad : NDArray) : Option NDArray :=
  if atleast1dShape outgrad.shape = sb then some outgrad
  else npReshape (npSum outgrad (onesIdxsFrom 0 sb)) sb

/-- `Transpose.shape`: with no axes, the operand shape reversed.  With an
explicit axes tuple the source evaluates `self.A.shape[ii]` — indexing the
bound method `shape` itself instead of calling it — which raises `TypeError`
for every element; the comprehension therefore only succeeds (vacuously) for
an empty axes tuple. -/
def transposeShape (aShape : List Nat) (axes : Option (List Nat)) : Option (List Nat) :=
  match axes with
  | none => some aShape.reverse
  | some ax => ax.mapM (fun _ => (none : Option Nat))

/-- `Transpose.local_grad`: plain transpose without axes, else transpose by
the argsort (inverse) of the axes permutation. -/
def transposeLocalGrad (outgrad : NDArray) (axes : Option (List Nat)) : Option NDArray :=
  match axes with
  | none => npTranspose outgrad none
  | some ax => npTranspose outgrad (some (argsortPerm ax))

/-!
The computation graph.  Node identity in the source is Python object identity
(`==` on `Differentiable` instances falls back to `is`); we model the DAG as
an arena: a list of nodes, each referring to its operands by index.  Two
indices are the same node exactly when they are equal, which preserves the
identity semantics.  In a well-formed graph every operand index is smaller
than its parent's index (operands are constructed first), so the graph is
acyclic.
-/

/-- One node of the computation graph.  `leaf` is modelled from the spec: a
generic value-bearing leaf (parameter/input) whose `value` is a fixed array,
whose `shape` is that array's shape and whose `depends` is false — the leaf
classes themselves are not part of the repository snapshot.  `targets` embeds
`targets.py` in its batcher-less form (the batching collaborator is external).
The remaining constructors are the operation nodes of `matrix_ops.py`;
post-construction fields only (`MatSum`'s axis is `None` or an `int` once the
constructor check has passed). -/
inductive Op where
  | leaf (val : NDArray)
  | targets (data : NDArray)
  | matMult (a b : Nat)
  | matAdd (a b : Nat)
  | matSum (a : Nat) (axis : Option Int)
  | transpose (a : Nat) (axes : Option (List Nat))
  | reshape (a : Nat) (newShape : List Nat)
deriving DecidableEq

/-- Operand references of a node. -/
def Op.operands : Op → List Nat
  | .leaf _ => []
  | .targets _ => []
  | .matMult a b => [a, b]
  | .matAdd a b => [a, b]
  | .matSum a _ => [a]
  | .transpose a _ => [a]
  | .reshape a _ => [a]

/-- Node lookup in the arena (out-of-range indices read as an inert leaf). -/
def gop (g : List Op) (n : Nat) : Op :=
  g.getD n (.leaf ⟨[], []⟩)

/-- Well-formedness of an arena graph: every operand of a node has a smaller
index, so operand edges always point to previously constructed nodes. -/
def WF (g : List Op) : Prop :=
  ∀ i, i < g.length → ∀ a ∈ (gop g i).operands, a < i

instance (g : List Op) : Decidable (WF g) := by
  unfold WF
  exact Nat.decidableBallLT _ _

/-- Proper reachability along operand edges: `Reaches g n m` holds when `m`
is an operand of `n` or reachable from an operand of `n`. -/
inductive Reaches (g : List Op) : Nat → Nat → Prop where
  | op {n m : Nat} : m ∈ (gop g n).operands → Reaches g n m
  | trans {n a m : Nat} : a ∈ (gop g n).operands → Reaches g a m → Reaches g n m

/-- Fuelled embedding of the `depends` methods: a `MatMult`/`MatAdd` node
depends on `other` iff `other` is one of its two operands or one of them
depends on it; the unary nodes likewise with their single operand; leaves
(and `Targets`) never depend on anything.  There is no self test. -/
def dependsFuel (g : List Op) : Nat → Nat → Nat → Bool
  | 0, _, _ => false
  | fuel + 1, n, other =>
    match gop g n with
    | .leaf _ => false
    | .targets _ => false
    | .matMult a b =>
      (other == a) || (other == b) || dependsFuel g fuel a other || dependsFuel g fuel b other
    | .matAdd a b =>
      (other == a) || (other == b) || dependsFuel g fuel a other || dependsFuel g fuel b other
    | .matSum a _ => (a == other) || dependsFuel g fuel a other
    | .transpose a _ => (other == a) || dependsFuel g fuel a other
    | .reshape a _ => (other == a) || dependsFuel g fuel a other

/-- `n.depends(other)`.  In a well-formed graph operand indices strictly
decrease, so `n + 1` units of fuel always suffice. -/
def depends (g : List Op) (n other : Nat) : Bool :=
  dependsFuel g (n + 1) n other

/-- Fuelled embedding of the `shape` methods of all node classes. -/
def shapeFuel (g : List Op) : Nat → Nat → Option (List Nat)
  | 0, _ => none
  | fuel + 1, n =>
    match gop g n with
    | .leaf v => some v.shape
    | .targets d => some d.shape
    | .matMult a b => do
      matMultShape (← shapeFuel g fuel a) (← shapeFuel g fuel b)
    | .matAdd a b => do
      broadcast (← shapeFuel g fuel a) (← shapeFuel g fuel b)
    | .matSum a ax => do
      let sa ← shapeFuel g fuel a
      match ax with
      | none => some (List.replicate sa.length 1)
      | some i => setAxisOne sa i
    | .transpose a axes => do
      transposeShape (← shapeFuel g fuel a) axes
    | .reshape _ s => some s

/-- `n.shape()`. -/
def shapeN (g : List Op) (n : Nat) : Option (List Nat) :=
  shapeFuel g (n + 1) n

/-- Fuelled embedding of the `compute_value` methods.  `value()` caching in
the `Differentiable` base class (modelled from the spec: return the cached
value or recompute via `compute_value`) is denotationally transparent, so the
value of a node is the recursive evaluation of its operation. -/
def valueFuel (g : List Op) : Nat → Nat → Option NDArray
  | 0, _ => none
  | fuel + 1, n =>
    match gop g n with
    | .leaf v => some v
    | .targets d => some d
    | .matMult a b => do
      npDot (← valueFuel g fuel a) (← valueFuel g fuel b)
    | .matAdd a b => do
      npAddBc (← valueFuel g fuel a) (← valueFuel g fuel b)
    | .matSum a ax => do
      let va ← valueFuel g fuel a
      match ax with
      | none => npReshape ⟨[], [va.data.sum]⟩ (List.replicate va.shape.length 1)
      | some i =>
        let j : Int := if i < 0 then (va.shape.length : Int) + i else i
        if 0 ≤ j ∧ j < (va.shape.length : Int) then
          let s := npSum va [j.toNat]
          npReshape s (insertOneAt j.toNat s.shape)
        else none
    | .transpose a axes => do
      npTranspose (← valueFuel g fuel a) axes
    | .reshape a s => do
      npReshape (← valueFuel g fuel a) s

/-- `n.value()`. -/
def valueN (g : List Op) (n : Nat) : Option NDArray :=
  valueFuel g (n + 1) n

/-- `MatMult.local_grad_A(outgrad) = np.dot(outgrad, B.value().T)`. -/
def mmLocalGradA (g : List Op) (b : Nat) (outgrad : NDArray) : Option NDArray := do
  let vb ← valueN g b
  let vbt ← npTranspose vb none
  npDot outgrad vbt

/-- `MatMult.local_grad_B(outgrad) = np.dot(A.value().T, outgrad)`. -/
def mmLocalGradB (g : List Op) (a : Nat) (outgrad : NDArray) : Option NDArray := do
  let va ← valueN g a
  let vat ← npTranspose va none
  npDot vat outgrad

/-- Fuelled embedding of the `compute_grad` methods (to which the spec-modelled
`Differentiable.grad` delegates directly).  `MatMult`/`MatAdd` accumulate into
`np.zeros(other.shape())`, adding the local gradient when `other` is the very
operand and the operand's own recursive gradient when the operand depends on
`other`; `MatAdd` first seeds a missing `outgrad` with ones of the broadcast
shape.  The unary operations return the (pushed-down) local gradient or
`np.zeros` of the untargeted shape used in the source.  Leaf gradients are out
of scope in the snapshot (and `Targets.grad` raises), hence `none`. -/
def gradFuel (g : List Op) : Nat → Nat → Nat → Option NDArray → Option NDArray
  | 0, _, _, _ => none
  | fuel + 1, n, other, outgrad =>
    match gop g n with
    | .leaf _ => none
    | .targets _ => none
    | .matMult a b => do
      let so ← shapeN g other
      let acc0 := zeros so
      let acc1 ←
        if other == a then do
          let og ← outgrad
          let lga ← mmLocalGradA g b og
          npAddInto acc0 lga
        else if depends g a other then do
          let og ← outgrad
          let lga ← mmLocalGradA g b og
          let r ← gradFuel g fuel a other (some lga)
          npAddInto acc0 r
        else pure acc0
      let acc2 ←
        if other == b then do
          let og ← outgrad
          let lgb ← mmLocalGradB g a og
          npAddInto acc1 lgb
        else if depends g b other then do
          let og ← outgrad
          let lgb ← mmLocalGradB g a og
          let r ← gradFuel g fuel b other (some lgb)
          npAddInto acc1 r
        else pure acc1
      pure acc2
    | .matAdd a b => do
      let og ←
        match outgrad with
        | some o => pure o
        | none => do
          let sa ← shapeN g a
          let sb ← shapeN g b
          let sc ← broadcast sa sb
          pure (ones sc)
      let so ← shapeN g other
      let acc0 := zeros so
      let acc1 ←
        if other == a then do
          let sa ← shapeN g a
          let lga ← localGradA sa og
          npAddInto acc0 lga
        else if depends g a other then do
          let sa ← shapeN g a
          let lga ← localGradA sa og
          let r ← gradFuel g fuel a other (some lga)
          npAddInto acc0 r
        else pure acc0
      let acc2 ←
        if other == b then do
          let sb ← shapeN g b
          let lgb ← localGradB sb og
          npAddInto acc1 lgb
        else if depends g b other then do
          let sb ← shapeN g b
          let lgb ← localGradB sb og
          let r ← gradFuel g fuel b other (some lgb)
          npAddInto acc1 r
        else pure acc1
      pure acc2
    | .matSum a _ =>
      if other == a then do
        let og ← outgrad
        let sa ← shapeN g a
        npMulBc og (ones sa)
      else if depends g a other then do
        let og ← outgrad
        let sa ← shapeN g a
        let lg ← npMulBc og (ones sa)
        gradFuel g fuel a other (some lg)
      else do
        let so ← shapeN g other
        pure (zeros so)
    | .transpose a axes =>
      if other == a then do
        let og ← outgrad
        transposeLocalGrad og axes
      else if depends g a other then do
        let og ← outgrad
        let lg ← transposeLocalGrad og axes
        gradFuel g fuel a other (some lg)
      else do
        let sa ← shapeN g a
        pure (zeros sa)
    | .reshape a _ =>
      if other == a then do
        let og ← outgrad
        let sa ← shapeN g a
        npReshape og sa
      else if depends g a other then do
        let og ← outgrad
        let sa ← shapeN g a
        let lg ← npReshape og sa
        gradFuel g fuel a other (some lg)
      else do
        let sa ← shapeN g a
        pure (zeros sa)

/-- `n.grad(other, outgrad)` (the spec-modelled `Differentiable.grad`
delegates to `compute_grad`). -/
def gradN (g : List Op) (n other : Nat) (outgrad : Option NDArray) : Option NDArray :=
  gradFuel g (n + 1) n other outgrad

/-!
Construction-time desugaring of the n-ary `MatMult`/`MatAdd` constructors.
The nesting of recursive constructor calls is captured by expression trees:
`f(A, B, C, …)` first rebuilds `B` as `f(B, C, …)` and then performs the
binary construction and shape check on `A` and the rebuilt `B`.
-/

/-- Construction tree for the n-ary constructor claims. -/
inductive MTree where
  | leaf (s : List Nat)
  | mult (a b : MTree)
  | add (a b : MTree)
deriving DecidableEq

/-- Shape of a construction tree, per the corresponding `shape` methods. -/
def MTree.shape : MTree → Option (List Nat)
  | .leaf s => some s
  | .mult a b => do matMultShape (← a.shape) (← b.shape)
  | .add a b => do broadcast (← a.shape) (← b.shape)

/-- Binary `MatMult` construction: the inner-dimension check of
`MatMult.__init__`, then the node. -/
def mmultChk (a b : MTree) : Except PyErr MTree :=
  match a.shape, b.shape with
  | some sa, some sb => do
    matMultCheck sa sb
    pure (.mult a b)
  | _, _ => .error .indexError

/-- Binary `MatAdd` construction: raise unless the operand shapes are
broadcast-compatible, then the node. -/
def maddChk (a b : MTree) : Except PyErr MTree :=
  match a.shape, b.shape with
  | some sa, some sb =>
    match broadcast sa sb with
    | some _ => pure (.add a b)
    | none => .error .exception
  | _, _ => .error .indexError

/-- `MatMult(A, B, *args)`: when extra arguments are present, `B` is first
rebuilt by the recursive constructor call `MatMult(B, *args)`, then the binary
construction of `A` with the rebuilt `B` runs. -/
def mmultN : MTree → MTree → List MTree → Except PyErr MTree
  | a, b, [] => mmultChk a b
  | a, b, c :: rest => do
    let b2 ← mmultN b c rest
    mmultChk a b2

/-- `MatAdd(A, B, *args)`, same recursion as `mmultN`. -/
def maddN : MTree → MTree → List MTree → Except PyErr MTree
  | a, b, [] => maddChk a b
  | a, b, c :: rest => do
    let b2 ← maddN b c rest
    maddChk a b2

/-- The explicitly nested right-leaning binary chain
`f(x₀, f(x₁, f(…, xₖ)))` built from a head node and the list of the remaining
nodes. -/
def nestedChain (f : MTree → MTree → Except PyErr MTree) :
    MTree → List MTree → Except PyErr MTree
  | a, [] => pure a
  | a, b :: rest => do
    let t ← nestedChain f b rest
    f a t

/-- `Reshape.__init__`: stores the operand and the new shape, performing no
validation whatsoever. -/
def reshapeConstruct (a : Nat) (newShape : List Nat) : Except PyErr Op :=
  .ok (.reshape a newShape)

deriving instance DecidableEq for Except

/-! Supporting lemmas. -/

theorem unravel_length (s : List Nat) (i : Nat) : (unravel s i).length = s.length := by
  induction s generalizing i with
  | nil => rfl
  | cons d rest ih => simp [unravel, ih]

theorem ravel_unravel {s : List Nat} {i : Nat} (h : i < s.prod) :
    ravel s (unravel s i) = i := by
  induction s generalizing i with
  | nil =>
    simp [List.prod_nil] at h
    simp [unravel, ravel, h]
  | cons d rest ih =>
    rcases Nat.eq_zero_or_pos rest.prod with hp | hp
    · rw [List.prod_cons, hp, Nat.mul_zero] at h
      exact absurd h (Nat.not_lt_zero i)
    · have hmod : i % rest.prod < rest.prod := Nat.mod_lt _ hp
      have hih := ih hmod
      simp only [unravel, ravel]
      rw [hih, Nat.mul_comm]
      exact Nat.div_add_mod i rest.prod

theorem clamp_unravel {s : List Nat} {i : Nat} (h : i < s.prod) :
    (s.zip (unravel s i)).map (fun p => if p.1 = 1 then 0 else p.2) = unravel s i := by
  induction s generalizing i with
  | nil => simp [unravel]
  | cons d rest ih =>
    rcases Nat.eq_zero_or_pos rest.prod with hp | hp
    · rw [List.prod_cons, hp, Nat.mul_zero] at h
      exact absurd h (Nat.not_lt_zero i)
    · have hmod : i % rest.prod < rest.prod := Nat.mod_lt _ hp
      simp only [unravel, List.zip_cons_cons, List.map_cons, ih hmod]
      by_cases hd : d = 1
      · subst hd
        rw [List.prod_cons, Nat.one_mul] at h
        simp [Nat.div_eq_of_lt h]
      · simp [hd]

theorem bcCoord_unravel {s : List Nat} {i : Nat} (h : i < s.prod) :
    bcCoord s (unravel s i) = unravel s i := by
  unfold bcCoord
  rw [unravel_length, Nat.sub_self, List.drop_zero]
  exact clamp_unravel h

theorem broadcastRev_self (l : List Nat) : broadcastRev l l = some l := by
  induction l with
  | nil => rfl
  | cons x xs ih => simp [broadcastRev, ih]

theorem broadcast_self (s : List Nat) : broadcast s s = some s := by
  simp [broadcast, broadcastRev_self]

theorem npAddInto_eq (a b : NDArray) (hsh : b.shape = a.shape)
    (ha : a.data.length = a.shape.prod) (hb : b.data.length = a.shape.prod) :
    npAddInto a b = some ⟨a.shape, List.zipWith (fun u v => u + v) a.data b.data⟩ := by
  unfold npAddInto
  rw [hsh, broadcast_self, if_pos rfl]
  refine congrArg some (congrArg (NDArray.mk a.shape) ?_)
  apply List.ext_getElem
  · simp [ha, hb]
  · intro i hi hj
    have hilt : i < a.shape.prod := by simpa using hi
    simp only [List.getElem_map, List.getElem_range, List.getElem_zipWith]
    unfold NDArray.bcGet
    rw [hsh, bcCoord_unravel hilt, ravel_unravel hilt,
      List.getD_eq_getElem _ _ (by omega : i < a.data.length),
      List.getD_eq_getElem _ _ (by omega : i < b.data.length)]

theorem zipWith_replicate_zero (l : List Int) :
    List.zipWith (fun u v => u + v) (List.replicate l.length 0) l = l := by
  induction l with
  | nil => rfl
  | cons x xs ih => simp [List.replicate_succ, ih]

theorem broadcastRev_forall₂ :
    ∀ (xs ys zs : List Nat), broadcastRev xs ys = some zs → xs.length = zs.length →
      List.Forall₂ (fun a c => a = 1 ∨ a = c) xs zs := by
  intro xs
  induction xs with
  | nil =>
    intro ys zs _ hlen
    have hz : zs = [] := by
      cases zs with
      | nil => rfl
      | cons z zt => simp at hlen
    subst hz
    exact List.Forall₂.nil
  | cons x xs ih =>
    intro ys zs h hlen
    cases ys with
    | nil =>
      simp only [broadcastRev, Option.some.injEq] at h
      subst h
      exact List.forall₂_same.mpr (fun a _ => Or.inr rfl)
    | cons y ys =>
      rw [broadcastRev] at h
      cases hrest : broadcastRev xs ys with
      | none => simp [hrest] at h
      | some rest =>
        simp only [hrest] at h
        by_cases hxy : x = y
        · rw [if_pos hxy, Option.some.injEq] at h
          subst h
          exact List.Forall₂.cons (Or.inr rfl)
            (ih ys rest hrest (by simpa using hlen))
        · rw [if_neg hxy] at h
          by_cases hx1 : x = 1
          · rw [if_pos hx1, Option.some.injEq] at h
            subst h
            exact List.Forall₂.cons (Or.inl hx1)
              (ih ys rest hrest (by simpa using hlen))
          · rw [if_neg hx1] at h
            by_cases hy1 : y = 1
            · rw [if_pos hy1, Option.some.injEq] at h
              subst h
              exact List.Forall₂.cons (Or.inr rfl)
                (ih ys rest hrest (by simpa using hlen))
            · rw [if_neg hy1] at h
              cases h

theorem broadcast_forall₂ {sa sb sc : List Nat} (h : broadcast sa sb = some sc)
    (hlen : sa.length = sc.length) :
    List.Forall₂ (fun a c => a = 1 ∨ a = c) sa sc := by
  unfold broadcast at h
  cases hz : broadcastRev sa.reverse sb.reverse with
  | none => simp [hz] at h
  | some z =>
    simp only [hz, Option.map_some', Option.some.injEq] at h
    have hrev := broadcastRev_forall₂ sa.reverse sb.reverse z hz
      (by rw [List.length_reverse, hlen, ← h, List.length_reverse])
    have hrev2 : List.Forall₂ (fun a c => a = 1 ∨ a = c) sa.reverse z.reverse.reverse := by
      rw [List.reverse_reverse]
      exact hrev
    have := List.forall₂_reverse_iff.mp hrev2
    rw [← h]
    exact this

theorem onesIdxsFrom_ge :
    ∀ (s : List Nat) (pos q : Nat), q ∈ onesIdxsFrom pos s → pos ≤ q := by
  intro s
  induction s with
  | nil => intro pos q h; simp [onesIdxsFrom] at h
  | cons d rest ih =>
    intro pos q h
    simp only [onesIdxsFrom] at h
    by_cases hd : d = 1
    · rw [if_pos hd] at h
      rcases List.mem_cons.mp h with rfl | h
      · exact Nat.le_refl q
      · exact Nat.le_of_succ_le (ih (pos + 1) q h)
    · rw [if_neg hd] at h
      exact Nat.le_of_succ_le (ih (pos + 1) q h)

theorem dropAxesFrom_congr :
    ∀ (s : List Nat) (pos : Nat) (ax1 ax2 : List Nat),
      (∀ q, pos ≤ q → (q ∈ ax1 ↔ q ∈ ax2)) →
      dropAxesFrom ax1 pos s = dropAxesFrom ax2 pos s := by
  intro s
  induction s with
  | nil => intro pos ax1 ax2 _; rfl
  | cons d rest ih =>
    intro pos ax1 ax2 hcong
    have hpos := hcong pos (Nat.le_refl pos)
    have htail := ih (pos + 1) ax1 ax2
      (fun q hq => hcong q (Nat.le_of_succ_le hq))
    by_cases hm : pos ∈ ax1
    · rw [dropAxesFrom, dropAxesFrom, if_pos hm, if_pos (hpos.mp hm), htail]
    · rw [dropAxesFrom, dropAxesFrom, if_neg hm, if_neg (fun hc => hm (hpos.mpr hc)), htail]

theorem prod_dropAxes_ones :
    ∀ (sa sc : List Nat) (pos : Nat),
      List.Forall₂ (fun a c => a = 1 ∨ a = c) sa sc →
      (dropAxesFrom (onesIdxsFrom pos sa) pos sc).prod = sa.prod := by
  intro sa
  induction sa with
  | nil =>
    intro sc pos hf
    cases hf
    rfl
  | cons a sa ih =>
    intro sc pos hf
    cases hf with
    | cons hrel htail =>
      rename_i c sc
      by_cases ha : a = 1
      · subst ha
        rw [onesIdxsFrom, if_pos rfl, dropAxesFrom, if_pos (List.mem_cons_self _ _)]
        rw [dropAxesFrom_congr sc (pos + 1) (pos :: onesIdxsFrom (pos + 1) sa)
          (onesIdxsFrom (pos + 1) sa) ?_]
        · rw [ih sc (pos + 1) htail]
          simp
        · intro q hq
          constructor
          · intro hmem
            rcases List.mem_cons.mp hmem with rfl | hmem
            · omega
            · exact hmem
          · intro hmem
            exact List.mem_cons_of_mem _ hmem
      · have hac : a = c := hrel.resolve_left ha
        rw [onesIdxsFrom, if_neg ha, dropAxesFrom]
        rw [if_neg (fun hc => by have := onesIdxsFrom_ge sa (pos + 1) pos hc; omega)]
        rw [List.prod_cons, List.prod_cons, ih sc (pos + 1) htail, hac]

theorem gop_of_ge {g : List Op} {n : Nat} (h : g.length ≤ n) :
    gop g n = .leaf ⟨[], []⟩ :=
  List.getD_eq_default _ _ h

theorem operand_lt {g : List Op} (hwf : WF g) {n a : Nat}
    (ha : a ∈ (gop g n).operands) : a < n := by
  rcases Nat.lt_or_ge n g.length with hlt | hge
  · exact hwf n hlt a ha
  · rw [gop_of_ge hge] at ha
    simp [Op.operands] at ha

theorem reaches_lt {g : List Op} (hwf : WF g) {n m : Nat}
    (h : Reaches g n m) : m < n := by
  induction h with
  | op hm => exact operand_lt hwf hm
  | trans ha _ ih => exact Nat.lt_trans ih (operand_lt hwf ha)

theorem not_reaches_of_op {g : List Op} {n m : Nat} {v : NDArray}
    (hop : gop g n = .leaf v) : ¬ Reaches g n m := by
  intro h
  cases h with
  | op hm => rw [hop] at hm; simp [Op.operands] at hm
  | trans ha _ => rw [hop] at ha; simp [Op.operands] at ha

theorem not_reaches_of_targets {g : List Op} {n m : Nat} {d : NDArray}
    (hop : gop g n = .targets d) : ¬ Reaches g n m := by
  intro h
  cases h with
  | op hm => rw [hop] at hm; simp [Op.operands] at hm
  | trans ha _ => rw [hop] at ha; simp [Op.operands] at ha

theorem reaches_binary_iff {g : List Op} {n m a b : Nat}
    (hop : (gop g n).operands = [a, b]) :
    Reaches g n m ↔ (m = a ∨ m = b ∨ Reaches g a m ∨ Reaches g b m) := by
  constructor
  · intro h
    cases h with
    | op hm =>
      rw [hop] at hm
      rcases List.mem_cons.mp hm with rfl | hm
      · exact Or.inl rfl
      · simp at hm
        exact Or.inr (Or.inl hm)
    | trans ha hr =>
      rw [hop] at ha
      rcases List.mem_cons.mp ha with rfl | ha
      · exact Or.inr (Or.inr (Or.inl hr))
      · simp at ha
        subst ha
        exact Or.inr (Or.inr (Or.inr hr))
  · intro h
    rcases h with rfl | rfl | h | h
    · exact Reaches.op (by rw [hop]; simp)
    · exact Reaches.op (by rw [hop]; simp)
    · exact Reaches.trans (a := a) (by rw [hop]; simp) h
    · exact Reaches.trans (a := b) (by rw [hop]; simp) h

theorem reaches_unary_iff {g : List Op} {n m a : Nat}
    (hop : (gop g n).operands = [a]) :
    Reaches g n m ↔ (m = a ∨ Reaches g a m) := by
  constructor
  · intro h
    cases h with
    | op hm =>
      rw [hop] at hm
      simp at hm
      exact Or.inl hm
    | trans ha hr =>
      rw [hop] at ha
      simp at ha
      subst ha
      exact Or.inr hr
  · intro h
    rcases h with rfl | h
    · exact Reaches.op (by rw [hop]; simp)
    · exact Reaches.trans (a := a) (by rw [hop]; simp) h

theorem dependsFuel_iff {g : List Op} (hwf : WF g) :
    ∀ (fuel n m : Nat), n < fuel → (dependsFuel g fuel n m = true ↔ Reaches g n m) := by
  intro fuel
  induction fuel with
  | zero => intro n m h; omega
  | succ fuel ih =>
    intro n m hn
    cases hop : gop g n with
    | leaf v =>
      simp [dependsFuel, hop, not_reaches_of_op hop]
    | targets d =>
      simp [dependsFuel, hop, not_reaches_of_targets hop]
    | matMult a b =>
      have hops : (gop g n).operands = [a, b] := by rw [hop]; rfl
      have halt : a < n := operand_lt hwf (by rw [hops]; simp)
      have hblt : b < n := operand_lt hwf (by rw [hops]; simp)
      simp only [dependsFuel, hop, Bool.or_eq_true, beq_iff_eq,
        ih a m (by omega), ih b m (by omega), reaches_binary_iff hops]
      tauto
    | matAdd a b =>
      have hops : (gop g n).operands = [a, b] := by rw [hop]; rfl
      have halt : a < n := operand_lt hwf (by rw [hops]; simp)
      have hblt : b < n := operand_lt hwf (by rw [hops]; simp)
      simp only [dependsFuel, hop, Bool.or_eq_true, beq_iff_eq,
        ih a m (by omega), ih b m (by omega), reaches_binary_iff hops]
      tauto
    | matSum a ax =>
      have hops : (gop g n).operands = [a] := by rw [hop]; rfl
      have halt : a < n := operand_lt hwf (by rw [hops]; simp)
      simp only [dependsFuel, hop, Bool.or_eq_true, beq_iff_eq,
        ih a m (by omega), reaches_unary_iff hops]
      tauto
    | transpose a axes =>
      have hops : (gop g n).operands = [a] := by rw [hop]; rfl
      have halt : a < n := operand_lt hwf (by rw [hops]; simp)
      simp only [dependsFuel, hop, Bool.or_eq_true, beq_iff_eq,
        ih a m (by omega), reaches_unary_iff hops]
    | reshape a s =>
      have hops : (gop g n).operands = [a] := by rw [hop]; rfl
      have halt : a < n := operand_lt hwf (by rw [hops]; simp)
      simp only [dependsFuel, hop, Bool.or_eq_true, beq_iff_eq,
        ih a m (by omega), reaches_unary_iff hops]

/-! Claim theorems. -/

/-- C1, counterexample: the claim states `n.depends(n)` is true for every
node; in the well-formed one-node graph holding a single leaf, `depends`
applied to the node itself returns false — the source tests only operands and
their descendants, never the receiver's own identity. -/
theorem c1_depends_self_counterexample :
    depends [Op.leaf ⟨[], []⟩] 0 0 = false ∧ WF [Op.leaf ⟨[], []⟩] := by
  exact ⟨rfl, by decide⟩

/-- C1, amended: in a well-formed graph, `n.depends(m)` is true iff `m` is
reachable from `n` along one or more identity-following operand edges (i.e.
`m` is an operand of `n` or a descendant of one); `n.depends(n)` is therefore
false for every node, the node itself is not counted. -/
theorem c1_depends_iff_proper_reachability (g : List Op) (hwf : WF g) (n m : Nat) :
    (depends g n m = true ↔ Reaches g n m) ∧ depends g n n = false := by
  refine ⟨dependsFuel_iff hwf (n + 1) n m (Nat.lt_succ_self n), ?_⟩
  have hnr : ¬ Reaches g n n := fun hr => absurd (reaches_lt hwf hr) (Nat.lt_irrefl n)
  have h2 := dependsFuel_iff hwf (n + 1) n n (Nat.lt_succ_self n)
  cases hbb : depends g n n
  · rfl
  · exact absurd (h2.mp hbb) hnr

/-- Witness for C1's amended theorem at a concrete three-node graph
`MatAdd(MatSum(X), X)`. -/
theorem c1_depends_iff_proper_reachability_witness :
    (depends [Op.leaf ⟨[2], [1, 2]⟩, Op.matSum 0 none, Op.matAdd 1 0] 2 0 = true ↔
      Reaches [Op.leaf ⟨[2], [1, 2]⟩, Op.matSum 0 none, Op.matAdd 1 0] 2 0) ∧
    depends [Op.leaf ⟨[2], [1, 2]⟩, Op.matSum 0 none, Op.matAdd 1 0] 2 2 = false :=
  c1_depends_iff_proper_reachability _ (by decide) 2 0

/-- C2, counterexample: `(3,)` and `(2, 3)` are broadcastable, yet
`MatAdd.local_grad_A` fails on them — the operand's own shape `(3,)` has no
axes of size 1, so nothing is summed and the rank-2 `outgrad` cannot be
reshaped to `(3,)`; the call raises instead of returning the reduced
gradient. -/
theorem c2_rank_expansion_counterexample :
    broadcast [3] [2, 3] = some [2, 3] ∧
    localGradA [3] ⟨[2, 3], [1, 1, 1, 1, 1, 1]⟩ = none := by
  decide

/-- C2, amended: `MatAdd.local_grad_A` returns `outgrad` unchanged when the
(at-least-1-d) shape of `outgrad` equals the operand's shape, and otherwise
sums `outgrad` exactly over the axes where the operand's shape is 1 and
reshapes to the operand's shape — which succeeds for every broadcastable
shape pair of equal rank, but not when the operand's rank is smaller than the
broadcast result's rank. -/
theorem c2_matadd_local_grad_adjoint :
    (∀ (sa : List Nat) (og : NDArray), atleast1dShape og.shape = sa →
      localGradA sa og = some og) ∧
    (∀ (sa sb sc : List Nat) (og : NDArray),
      broadcast sa sb = some sc → sa.length = sc.length → sc ≠ sa →
      og.shape = sc → og.data.length = sc.prod →
      localGradA sa og = some ⟨sa, (npSum og (onesIdxsFrom 0 sa)).data⟩) := by
  constructor
  · intro sa og h
    unfold localGradA
    rw [if_pos h]
  · intro sa sb sc og hbc hlen hne hsh hdata
    unfold localGradA
    rw [if_neg ?hcond]
    case hcond =>
      rw [hsh]
      unfold atleast1dShape
      by_cases hnil : sc = []
      · exfalso
        apply hne
        rw [hnil] at hlen ⊢
        exact (List.eq_nil_of_length_eq_zero hlen).symm ▸ rfl
      · rw [if_neg hnil]
        exact hne
    unfold npReshape
    rw [if_pos ?hp]
    case hp =>
      show (dropAxesFrom (onesIdxsFrom 0 sa) 0 og.shape).prod = sa.prod
      rw [hsh]
      exact prod_dropAxes_ones sa sc 0 (broadcast_forall₂ hbc hlen)

/-- Witness for C2's amended theorem: the identity branch on a `(2, 3)` pair
and the summing branch on the equal-rank pair `(3, 1)` vs `(3, 4)`. -/
theorem c2_matadd_local_grad_adjoint_witness :
    localGradA [2, 3] ⟨[2, 3], [1, 1, 1, 1, 1, 1]⟩ =
      some ⟨[2, 3], [1, 1, 1, 1, 1, 1]⟩ ∧
    localGradA [3, 1] ⟨[3, 4], List.replicate 12 1⟩ =
      some ⟨[3, 1], (npSum ⟨[3, 4], List.replicate 12 1⟩ (onesIdxsFrom 0 [3, 1])).data⟩ :=
  ⟨c2_matadd_local_grad_adjoint.1 [2, 3] ⟨[2, 3], [1, 1, 1, 1, 1, 1]⟩ (by decide),
   c2_matadd_local_grad_adjoint.2 [3, 1] [3, 4] [3, 4] ⟨[3, 4], List.replicate 12 1⟩
     (by decide) rfl (by decide) rfl (by decide)⟩

/-- C3: `Transpose.shape` with an explicit axes permutation raises (`none`)
instead of returning the permuted sizes, because the source indexes the bound
method `self.A.shape` instead of its call's result; with no axes it correctly
returns the operand shape reversed; and the forward pass (`np.transpose`)
handles the very same permutation fine, so `shape()` contradicts the shape of
the computed value. -/
theorem c3_transpose_shape_method_index_bug :
    transposeShape [2, 3] (some [1, 0]) = none ∧
    (∀ s : List Nat, transposeShape s none = some s.reverse) ∧
    npTranspose ⟨[2, 3], [0, 1, 2, 3, 4, 5]⟩ (some [1, 0]) =
      some ⟨[3, 2], [0, 3, 1, 4, 2, 5]⟩ := by
  exact ⟨by decide, fun s => rfl, by decide⟩

/-- C4: for the diamond `MatAdd(X, X)`, `compute_grad` with respect to `X`
starts from a zero accumulator and adds the local gradient once for each of
the two operand slots, so the result is elementwise twice the single-path
local gradient (which is `outgrad` itself). -/
theorem c4_diamond_gradient_accumulates (x og : NDArray) (h1 : og.shape = x.shape)
    (h2 : x.shape ≠ []) (h3 : og.data.length = x.shape.prod) :
    gradN [Op.leaf x, Op.matAdd 0 0] 1 0 (some og) =
      some ⟨x.shape, List.zipWith (fun u v => u + v) og.data og.data⟩ ∧
    localGradA x.shape og = some og := by
  have hcond : atleast1dShape og.shape = x.shape := by
    rw [h1]
    unfold atleast1dShape
    rw [if_neg h2]
  have hlga : localGradA x.shape og = some og := by
    unfold localGradA
    rw [if_pos hcond]
  have hlgb : localGradB x.shape og = some og := by
    unfold localGradB
    rw [if_pos hcond]
  refine ⟨?_, hlga⟩
  have haz : npAddInto (zeros x.shape) og = some ⟨x.shape, og.data⟩ := by
    have he := npAddInto_eq (zeros x.shape) og h1 (by simp [zeros]) h3
    rw [he]
    have : List.zipWith (fun u v => u + v) (List.replicate x.shape.prod 0) og.data
        = og.data := by
      rw [← h3]
      exact zipWith_replicate_zero og.data
    simp only [zeros] at this ⊢
    rw [this]
  have ha2 : npAddInto ⟨x.shape, og.data⟩ og =
      some ⟨x.shape, List.zipWith (fun u v => u + v) og.data og.data⟩ :=
    npAddInto_eq ⟨x.shape, og.data⟩ og h1 h3 h3
  have hg1 : gop [Op.leaf x, Op.matAdd 0 0] 1 = Op.matAdd 0 0 := rfl
  have hsh0 : shapeN [Op.leaf x, Op.matAdd 0 0] 0 = some x.shape := rfl
  simp only [gradN, gradFuel, hg1, hsh0, hlga, hlgb, haz, ha2, Option.bind_some,
    beq_self_eq_true, if_true]
  simp [hlga, hlgb, haz, ha2]

/-- Witness for C4 at a concrete `(2,)`-shaped diamond. -/
theorem c4_diamond_gradient_accumulates_witness :
    gradN [Op.leaf ⟨[2], [5, 7]⟩, Op.matAdd 0 0] 1 0 (some ⟨[2], [1, 2]⟩) =
      some ⟨([2] : List Nat), List.zipWith (fun u v => u + v) ([1, 2] : List Int) [1, 2]⟩ ∧
    localGradA [2] ⟨[2], [1, 2]⟩ = some ⟨[2], [1, 2]⟩ :=
  c4_diamond_gradient_accumulates ⟨[2], [5, 7]⟩ ⟨[2], [1, 2]⟩ rfl (by decide) rfl

/-- C5, counterexample: the claim says construction raises iff `A`'s trailing
dimension differs from `B`'s leading dimension; for a rank-1 `A = (3,)` and
`B = (3, 2)` those agree, yet construction still raises (an `IndexError` from
`A.shape()[1]`). -/
theorem c5_rank1_matching_counterexample :
    matMultCheck [3] [3, 2] = Except.error PyErr.indexError ∧
    ([3] : List Nat).getLast? = some 3 ∧ ([3, 2] : List Nat).head? = some 3 := by
  decide

/-- C5, amended: provided `A` has rank at least 2 and `B` rank at least 1,
`MatMult` construction succeeds iff `A.shape[1]` (the column count of a
matrix) equals `B.shape[0]`; the check lives in the constructor, not in
evaluation.  (For rank-1 `A` the constructor always raises an indexing
error; see the rank-1 theorem.) -/
theorem c5_matmult_inner_dim_check (sa sb : List Nat) (ha : 2 ≤ sa.length)
    (hb : 1 ≤ sb.length) :
    matMultCheck sa sb = Except.ok () ↔ sa.getD 1 0 = sb.getD 0 0 := by
  rcases sa with _ | ⟨a0, sa⟩
  · simp at ha
  rcases sa with _ | ⟨a1, sa⟩
  · simp at ha
  rcases sb with _ | ⟨b0, sb⟩
  · simp at hb
  by_cases h : a1 = b0 <;> simp [matMultCheck, h]

/-- Witness for C5's amended theorem at shapes `(2, 3)` and `(3, 4)`. -/
theorem c5_matmult_inner_dim_check_witness :
    matMultCheck [2, 3] [3, 4] = Except.ok () ↔
      ([2, 3] : List Nat).getD 1 0 = ([3, 4] : List Nat).getD 0 0 :=
  c5_matmult_inner_dim_check [2, 3] [3, 4] (by decide) (by decide)

/-- C6: the n-ary `MatMult(A, B, C, …)` (and likewise `MatAdd`) constructor
call desugars, at construction time, into exactly the right-nested binary
chain `f(A, f(B, C, …))` — the result (node tree, hence value, shape and
gradients, and also any construction-time failure) coincides with the
explicitly nested binary construction. -/
theorem c6_nary_right_nested_desugar :
    (∀ (a b : MTree) (args : List MTree),
      mmultN a b args = nestedChain mmultChk a (b :: args)) ∧
    (∀ (a b : MTree) (args : List MTree),
      maddN a b args = nestedChain maddChk a (b :: args)) := by
  constructor
  · intro a b args
    induction args generalizing a b with
    | nil => rfl
    | cons c rest ih => simp [mmultN, nestedChain, ih b c]
  · intro a b args
    induction args generalizing a b with
    | nil => rfl
    | cons c rest ih => simp [maddN, nestedChain, ih b c]

/-- C7: for every successfully constructed `MatMult`, `shape()` is the rank-1
tuple `(A.rows,)` when the right operand has rank 1 and `(A.rows, B.cols)`
otherwise. -/
theorem c7_matmult_shape_rank (sa sb : List Nat)
    (h : matMultCheck sa sb = Except.ok ()) :
    matMultShape sa sb =
      some (if sb.length = 1 then [sa.headD 0] else [sa.headD 0, sb.getD 1 0]) := by
  rcases sa with _ | ⟨a0, sa⟩
  · exact absurd h (by cases hb : sb.get? 0 <;> simp [matMultCheck, hb])
  rcases sa with _ | ⟨a1, sa⟩
  · exact absurd h (by cases hb : sb.get? 0 <;> simp [matMultCheck, hb])
  rcases sb with _ | ⟨b0, sb⟩
  · exact absurd h (by simp [matMultCheck])
  rcases sb with _ | ⟨b1, sb⟩
  · simp [matMultShape]
  · simp [matMultShape]

/-- Witness for C7 at shapes `(2, 3)` and `(3, 4)`. -/
theorem c7_matmult_shape_rank_witness :
    matMultShape [2, 3] [3, 4] =
      some (if ([3, 4] : List Nat).length = 1 then [([2, 3] : List Nat).headD 0]
        else [([2, 3] : List Nat).headD 0, ([3, 4] : List Nat).getD 1 0]) :=
  c7_matmult_shape_rank [2, 3] [3, 4] (by decide)

/-- C8: `MatSum` with no axis sums all elements into an all-ones shape of the
operand's rank (both for `compute_value` and `shape()`), and its constructor
raises exactly when an axis argument is supplied that is not a single
integer. -/
theorem c8_matsum_full_reduction :
    (∀ ax : Option AxisArg, (∃ r, matSumCheck ax = Except.ok r) ↔
      ax ≠ some AxisArg.nonInt) ∧
    (∀ x : NDArray, valueN [Op.leaf x, Op.matSum 0 none] 1 =
      some ⟨List.replicate x.shape.length 1, [x.data.sum]⟩) ∧
    (∀ x : NDArray, shapeN [Op.leaf x, Op.matSum 0 none] 1 =
      some (List.replicate x.shape.length 1)) := by
  refine ⟨?_, ?_, ?_⟩
  · intro ax
    cases ax with
    | none => simp [matSumCheck]
    | some a =>
      cases a with
      | int i => simp [matSumCheck]
      | nonInt => simp [matSumCheck]
  · intro x
    have hg1 : gop [Op.leaf x, Op.matSum 0 none] 1 = Op.matSum 0 none := rfl
    have hg0 : gop [Op.leaf x, Op.matSum 0 none] 0 = Op.leaf x := rfl
    simp [valueN, valueFuel, hg1, hg0, npReshape, List.prod_replicate]
  · intro x
    have hg1 : gop [Op.leaf x, Op.matSum 0 none] 1 = Op.matSum 0 none := rfl
    have hg0 : gop [Op.leaf x, Op.matSum 0 none] 0 = Op.leaf x := rfl
    simp [shapeN, shapeFuel, hg1, hg0]

/-- C9: `Reshape` construction always succeeds, with no element-count
validation; a mismatched element count surfaces only when the value is
computed, through the underlying array-reshape primitive, while `shape()`
reports the requested shape regardless. -/
theorem c9_reshape_defers_count_check :
    (∀ (a : Nat) (s : List Nat), reshapeConstruct a s = Except.ok (Op.reshape a s)) ∧
    (∀ (x : NDArray) (s : List Nat),
      valueN [Op.leaf x, Op.reshape 0 s] 1 = npReshape x s) ∧
    (∀ (x : NDArray) (s : List Nat),
      (valueN [Op.leaf x, Op.reshape 0 s] 1 = none ↔ x.shape.prod ≠ s.prod)) ∧
    (∀ (x : NDArray) (s : List Nat), shapeN [Op.leaf x, Op.reshape 0 s] 1 = some s) := by
  have hv : ∀ (x : NDArray) (s : List Nat),
      valueN [Op.leaf x, Op.reshape 0 s] 1 = npReshape x s := by
    intro x s
    have hg1 : gop [Op.leaf x, Op.reshape 0 s] 1 = Op.reshape 0 s := rfl
    have hg0 : gop [Op.leaf x, Op.reshape 0 s] 0 = Op.leaf x := rfl
    simp [valueN, valueFuel, hg1, hg0]
  refine ⟨fun a s => rfl, hv, ?_, ?_⟩
  · intro x s
    rw [hv x s]
    unfold npReshape
    by_cases h : x.shape.prod = s.prod <;> simp [h]
  · intro x s
    have hg1 : gop [Op.leaf x, Op.reshape 0 s] 1 = Op.reshape 0 s := rfl
    simp [shapeN, shapeFuel, hg1]

/-- C10: `MatMult.__init__` evaluates `A.shape()[1]` before anything can be
compared, so with a rank-1 left operand construction raises an out-of-range
indexing error (never the documented shape-mismatch exception), whatever the
right operand's shape is. -/
theorem c10_matmult_rank1_raises_index_error (sa sb : List Nat)
    (h : sa.length = 1) :
    matMultCheck sa sb = Except.error PyErr.indexError := by
  rcases sa with _ | ⟨d, sa⟩
  · simp at h
  rcases sa with _ | ⟨d2, sa⟩
  · cases hb : sb.get? 0 <;> simp [matMultCheck, hb]
  · simp at h

/-- Witness for C10 at `A = (3,)`, `B = (4, 5)`. -/
theorem c10_matmult_rank1_raises_index_error_witness :
    matMultCheck [3] [4, 5] = Except.error PyErr.indexError :=
  c10_matmult_rank1_raises_index_error [3] [4, 5] rfl

end Kayak
